import Mathlib

/-!
Shallow embedding of the chunking engine of `src/chunkers.py` and proofs
about it.  Text payloads are modelled as `List Char`; Python dictionaries
holding chunk metadata are modelled by the `Chunk` structure below (the
random `chunk_id` field, a fresh uuid per chunk, is not modelled).  The
Python functions that can raise (`range` with a zero step raises
`ValueError`) are modelled with `Option`, `none` standing for the raised
exception.
-/

namespace Chunkers

/-- Text payloads are lists of characters. -/
abbrev Str := List Char

/-- Whitespace as matched by Python's `\s` and `str.strip()` (ASCII range). -/
def isPyWs (c : Char) : Bool :=
  c = ' ' || c = '\t' || c = '\n' || c = '\r' || c = '\x0b' || c = '\x0c'

/-- Python `str.strip()`: drop whitespace from both ends. -/
def pyStrip (l : Str) : Str :=
  ((l.dropWhile isPyWs).reverse.dropWhile isPyWs).reverse

/-- Helper for the paragraph-splitting regex `\n\s*\n`: given the text after
an initial newline, if the maximal whitespace run that follows contains a
newline, return the suffix after the last such newline (the greedy `\s*`
backtracks to the last newline of the run); otherwise `none`. -/
def dropToLastNl : Str → Option Str
  | [] => none
  | c :: rest =>
    if isPyWs c then
      match dropToLastNl rest with
      | some r => some r
      | none => if c = '\n' then some rest else none
    else none

/-- Model of `re.split(r'\n\s*\n', content)`: scan the text; at each newline
whose following whitespace run contains another newline, cut a segment (the
matched separator is consumed up to the last newline of the run).  The `fuel`
argument makes the recursion structural; it is always called with fuel at
least the length of the text, which makes the fuel-exhausted branch dead. -/
def splitParasGo : Nat → Str → Str → List Str
  | _, cur, [] => [cur.reverse]
  | 0, cur, rest => [cur.reverse ++ rest]
  | fuel + 1, cur, c :: rest =>
    if c = '\n' then
      match dropToLastNl rest with
      | some r => cur.reverse :: splitParasGo fuel [] r
      | none => splitParasGo fuel (c :: cur) rest
    else splitParasGo fuel (c :: cur) rest

def splitParas (content : Str) : List Str := splitParasGo content.length [] content

/-- Does the previously scanned character end a sentence (`[.!?]`)? -/
def isSentEnd : Option Char → Bool
  | some c => c = '.' || c = '!' || c = '?'
  | none => false

/-- Model of `re.split(r'(?<=[.!?])\s+', para)`: split at each maximal
whitespace run preceded by `.`, `!` or `?`, removing the run.  Fuel makes the
recursion structural; callers pass at least the length of the text. -/
def splitSentencesGo : Nat → Option Char → Str → Str → List Str
  | _, _, cur, [] => [cur.reverse]
  | 0, _, cur, rest => [cur.reverse ++ rest]
  | fuel + 1, prev, cur, c :: rest =>
    if isPyWs c && isSentEnd prev then
      cur.reverse :: splitSentencesGo fuel (some c) [] (rest.dropWhile isPyWs)
    else splitSentencesGo fuel (some c) (c :: cur) rest

def splitSentences (para : Str) : List Str := splitSentencesGo para.length none [] para

/-- Model of Python `range(0, stop, step)` for an `Int` step: a zero step
raises `ValueError` (`none`); a negative step yields no indices (the start
`0` is never greater than a natural `stop`); a positive step yields
`0, step, 2*step, …` below `stop`. -/
def pyRange (stop : Nat) (step : Int) : Option (List Nat) :=
  if step = 0 then none
  else if step < 0 then some []
  else some ((List.range ((stop + step.toNat - 1) / step.toNat)).map (· * step.toNat))

/-- One output record of a chunker: the `content` payload plus the metadata
fields the engine writes (`chunk_id`, a fresh uuid, is not modelled; absent
dictionary keys are modelled by `none` / default values). -/
structure Chunk where
  content : Str
  chunkType : String
  chunkIndex : Nat
  language : Option String := none
  sectionId : Option Str := none
  sectionClass : Option Str := none
  subChunk : Bool := false
  originalChunkType : Option String := none
deriving DecidableEq

/-- State of `TextChunker.chunk`: the emitted chunks, the accumulating
`current_chunk` and the running `current_size` counter. -/
structure TCState where
  chunks : List Chunk
  cur : Str
  curSize : Nat
deriving DecidableEq

/-- Append a text chunk; `chunk_index` is `len(chunks)` at append time. -/
def appendTextChunk (cs : List Chunk) (c : Str) : List Chunk :=
  cs ++ [{ content := c, chunkType := "text", chunkIndex := cs.length }]

/-- Sentence-level loop body of `TextChunker.chunk` (lines 80-113 of
`src/chunkers.py`).  Mirrors the source faithfully, including that after
flushing `current_chunk` ahead of the character-window path the accumulator
is not reset. -/
def procSentence (size olap : Nat) (st : TCState) (sen : Str) : Option TCState :=
  if st.curSize + sen.length ≤ size then
    some { st with
            cur := (if st.cur ≠ [] then st.cur ++ [' '] else st.cur) ++ sen,
            curSize := st.curSize + sen.length + 1 }
  else
    let cs1 := if st.cur ≠ [] then appendTextChunk st.chunks st.cur else st.chunks
    if size < sen.length then
      match pyRange sen.length ((size : Int) - (olap : Int)) with
      | none => none
      | some idxs =>
        some { st with
                chunks := idxs.foldl (fun cs i => appendTextChunk cs ((sen.drop i).take size)) cs1 }
    else
      some { chunks := cs1, cur := sen, curSize := sen.length }

/-- Paragraph-level loop body of `TextChunker.chunk` (lines 48-116). -/
def procPara (size olap : Nat) (st : TCState) (p : Str) : Option TCState :=
  let para := pyStrip p
  if para = [] then some st
  else if st.curSize + para.length ≤ size then
    some { st with
            cur := (if st.cur ≠ [] then st.cur ++ ['\n', '\n'] else st.cur) ++ para,
            curSize := st.curSize + para.length + 2 }
  else
    let cs1 := if st.cur ≠ [] then appendTextChunk st.chunks st.cur else st.chunks
    if size < para.length then
      (splitSentences para).foldlM (procSentence size olap) { chunks := cs1, cur := [], curSize := 0 }
    else
      some { chunks := cs1, cur := para, curSize := para.length }

/-- Model of `TextChunker.chunk` (lines 39-129 of `src/chunkers.py`). -/
def textChunk (content : Str) (size olap : Nat) : Option (List Chunk) := do
  let st ← (splitParas content).foldlM (procPara size olap) { chunks := [], cur := [], curSize := 0 }
  pure (if st.cur ≠ [] then appendTextChunk st.chunks st.cur else st.chunks)

/-! HTML chunker.  `HTMLChunker.chunk` parses its input with BeautifulSoup;
the parse tree is modelled by `HNode` and taken as the chunker's input, since
the parser itself is library code.  An element carries its tag, its `id` and
`class` attributes (`class` is multi-valued in BeautifulSoup) and its
children; the other attributes are not consulted by the chunker. -/

inductive HNode where
  | elem : String → Option Str → Option (List Str) → List HNode → HNode
  | textNode : Str → HNode

/-! `collectStrings` models BeautifulSoup `.strings`: all strings of a
subtree in document order. -/

mutual
def collectStrings : HNode → List Str
  | .textNode s => [s]
  | .elem _ _ _ ch => collectStringsL ch
def collectStringsL : List HNode → List Str
  | [] => []
  | n :: rest => collectStrings n ++ collectStringsL rest
end

/-- BeautifulSoup `get_text(separator=sep, strip=True)`: strip every string
of the subtree, drop the ones that become empty, join with the separator. -/
def getText (sep : Str) (n : HNode) : Str :=
  List.intercalate sep (((collectStrings n).map pyStrip).filter (fun x => !x.isEmpty))

/-! `findAll` models BeautifulSoup `soup.find_all(tag)`: all elements with
that tag, in document (pre-)order. -/

mutual
def findAll (t : String) : HNode → List HNode
  | .textNode _ => []
  | .elem tg i cl ch => (if tg = t then [HNode.elem tg i cl ch] else []) ++ findAllL t ch
def findAllL (t : String) : List HNode → List HNode
  | [] => []
  | n :: rest => findAll t n ++ findAllL t rest
end

/-- The semantic section tag allowlist (line 177 of `src/chunkers.py`). -/
def sectionTags : List String :=
  ["div", "section", "article", "main", "header", "footer", "nav", "aside"]

/-- Lines 180-182: one `find_all` per allowlisted tag, concatenated in
allowlist order (not document order across tags). -/
def htmlSections (doc : List HNode) : List HNode :=
  (sectionTags.map (fun t => findAllL t doc)).flatten

def nodeId : HNode → Option Str
  | .elem _ i _ _ => i
  | .textNode _ => none

def nodeClass : HNode → Option (List Str)
  | .elem _ _ cl _ => cl
  | .textNode _ => none

/-- Model of `section.get('id', '')`: the attribute, or the empty string if absent. -/
def attrStr (o : Option Str) : Str := o.getD []

/-- Model of `section.get('class', '')` run through `_validate_metadata_value`: the
multi-valued class attribute is joined with spaces; absent gives `''`. -/
def classStr : Option (List Str) → Str
  | none => []
  | some ls => List.intercalate [' '] ls

/-- Loop body over one section (lines 185-224 of `src/chunkers.py`).  A
small section is emitted whole; an oversized one is delegated to the text
chunker, each sub-chunk re-tagged (the sub-chunk index is `len(chunks) + i`
evaluated inside the append loop, faithful to the source). -/
def htmlSecStep (size olap : Nat) (cs : List Chunk) (sec : HNode) : Option (List Chunk) :=
  let txt := getText [' '] sec
  if txt = [] then some cs
  else if txt.length ≤ size then
    some (cs ++ [{ content := txt, chunkType := "html", chunkIndex := cs.length,
                   sectionId := some (attrStr (nodeId sec)),
                   sectionClass := some (classStr (nodeClass sec)) }])
  else do
    let subs ← textChunk txt size olap
    pure (subs.enum.foldl
      (fun cs2 p =>
        cs2 ++ [{ content := p.2.content, chunkType := "html",
                  chunkIndex := cs2.length + p.1,
                  sectionId := some (attrStr (nodeId sec)),
                  sectionClass := some (classStr (nodeClass sec)),
                  subChunk := true,
                  originalChunkType := some p.2.chunkType }]) cs)

/-- Whole-document visible text, `soup.get_text(separator='\n', strip=True)`
(line 227), used by the no-sections fallback. -/
def docText (doc : List HNode) : Str :=
  List.intercalate ['\n'] (((collectStringsL doc).map pyStrip).filter (fun x => !x.isEmpty))

/-- Model of `HTMLChunker.chunk` (lines 145-245 of `src/chunkers.py`), over the parse
tree.  The document-level `title`/`meta` metadata extraction does not affect
content, indices or sizes and is not modelled. -/
def htmlChunk (doc : List HNode) (size olap : Nat) : Option (List Chunk) :=
  let secs := htmlSections doc
  if secs.isEmpty then
    (textChunk (docText doc) size olap).map (fun tcs =>
      tcs.enum.map (fun p =>
        { content := p.2.content, chunkType := "html", chunkIndex := p.1,
          originalChunkType := some p.2.chunkType }))
  else secs.foldlM (htmlSecStep size olap) []

/-! Code chunker.  The regular expressions of `CodeChunker` are embedded as
deterministic matchers; each of them alternates character classes that are
pairwise disjoint at the boundaries, so greedy maximal-munch matching agrees
with Python's backtracking `re`. -/

/-- Case-sensitive literal-prefix matcher; returns the rest of the input. -/
def litAux : Str → Str → Option Str
  | [], rest => some rest
  | _ :: _, [] => none
  | p :: ps, c :: cs => if p = c then litAux ps cs else none

def lit (pat : String) (s : Str) : Option Str := litAux pat.data s

/-- Case-insensitive literal-prefix matcher (for `re.IGNORECASE` searches). -/
def litCIAux : Str → Str → Option Str
  | [], rest => some rest
  | _ :: _, [] => none
  | p :: ps, c :: cs => if p.toLower = c.toLower then litCIAux ps cs else none

def litCI (pat : String) (s : Str) : Option Str := litCIAux pat.data s

/-- Pattern `\s+`: at least one whitespace character, consumed greedily. -/
def ws1 : Str → Option Str
  | c :: rest => if isPyWs c then some (rest.dropWhile isPyWs) else none
  | [] => none

/-- Pattern `\s*`: any whitespace, consumed greedily. -/
def ws0 (s : Str) : Option Str := some (s.dropWhile isPyWs)

/-- Pattern `[class]+` for a character class `p`, consumed greedily. -/
def cls1 (p : Char → Bool) : Str → Option Str
  | c :: rest => if p c then some (rest.dropWhile p) else none
  | [] => none

/-- Character class `\w` (ASCII). -/
def isWordChar (c : Char) : Bool := c.isAlphanum || c = '_'

/-- Character class `[\w\.]`. -/
def isWordDot (c : Char) : Bool := isWordChar c || c = '.'

/-- Model of `re.search`: does the pattern match at some position? -/
def reSearch (m : Str → Bool) : Str → Bool
  | [] => m []
  | c :: rest => m (c :: rest) || reSearch m rest

/-- Pattern `import\s+[\w\.]+|from\s+[\w\.]+\s+import` (python signature). -/
def patPython (s : Str) : Bool :=
  (litCI "import" s >>= ws1 >>= cls1 isWordDot).isSome ||
  (litCI "from" s >>= ws1 >>= cls1 isWordDot >>= ws1 >>= litCI "import").isSome

/-- Pattern `function\s+[\w]+\s*\(|const\s+[\w]+\s*=|let\s+[\w]+\s*=|var\s+[\w]+\s*=`. -/
def patJs (s : Str) : Bool :=
  (litCI "function" s >>= ws1 >>= cls1 isWordChar >>= ws0 >>= litCI "(").isSome ||
  (litCI "const" s >>= ws1 >>= cls1 isWordChar >>= ws0 >>= litCI "=").isSome ||
  (litCI "let" s >>= ws1 >>= cls1 isWordChar >>= ws0 >>= litCI "=").isSome ||
  (litCI "var" s >>= ws1 >>= cls1 isWordChar >>= ws0 >>= litCI "=").isSome

/-- Pattern `public\s+class|private\s+class|protected\s+class`. -/
def patJavaClass (s : Str) : Bool :=
  (litCI "public" s >>= ws1 >>= litCI "class").isSome ||
  (litCI "private" s >>= ws1 >>= litCI "class").isSome ||
  (litCI "protected" s >>= ws1 >>= litCI "class").isSome

/-- Pattern for an include directive followed by an angle bracket or a double quote. -/
def patInclude (s : Str) : Bool :=
  (litCI "#include" s >>= ws0 >>= litCI "<").isSome ||
  (litCI "#include" s >>= ws0 >>= litCI "\"").isSome

/-- Pattern `package\s+[\w\.]+;`. -/
def patPackage (s : Str) : Bool :=
  (litCI "package" s >>= ws1 >>= cls1 isWordDot >>= litCI ";").isSome

/-- Pattern `using\s+[\w\.]+;`. -/
def patUsing (s : Str) : Bool :=
  (litCI "using" s >>= ws1 >>= cls1 isWordDot >>= litCI ";").isSome

/-- Pattern `<!DOCTYPE\s+html|<html`. -/
def patHtml (s : Str) : Bool :=
  (litCI "<!DOCTYPE" s >>= ws1 >>= litCI "html").isSome || (litCI "<html" s).isSome

/-- Pattern `<\?php`. -/
def patPhp (s : Str) : Bool := (litCI "<?php" s).isSome

/-- Model of `CodeChunker._detect_language` (lines 261-279 of `src/chunkers.py`):
first matching pattern wins, in the source's dictionary order. -/
def detectLanguage (content : Str) : String :=
  if reSearch patPython content then "python"
  else if reSearch patJs content then "javascript"
  else if reSearch patJavaClass content then "java"
  else if reSearch patInclude content then "c/c++"
  else if reSearch patPackage content then "java"
  else if reSearch patUsing content then "c#"
  else if reSearch patHtml content then "html"
  else if reSearch patPhp content then "php"
  else "unknown"

/-- Python `content.split('\n')` (keeps empty segments). -/
def splitLinesGo (cur : Str) : Str → List Str
  | [] => [cur.reverse]
  | c :: rest =>
    if c = '\n' then cur.reverse :: splitLinesGo [] rest
    else splitLinesGo (c :: cur) rest

def splitLines (s : Str) : List Str := splitLinesGo [] s

/-- Does the keyword match at the head of `r`, followed by whitespace? -/
def hasKwWs (kw : String) (r : Str) : Bool :=
  match lit kw r with
  | some (c :: _) => isPyWs c
  | _ => false

/-- Model of `re.match(r'\s*(import|from|#include|using)\s+', line)` (line 300). -/
def matchesImport (l : Str) : Bool :=
  let r := l.dropWhile isPyWs
  hasKwWs "import" r || hasKwWs "from" r || hasKwWs "#include" r || hasKwWs "using" r

/-- One alternative of the function-declaration pattern. -/
def kwFuncPat (kw : String) (r : Str) : Bool :=
  (lit kw r >>= ws1 >>= cls1 isWordChar >>= ws0 >>= lit "(").isSome

/-- Model of `re.match(r'\s*(def|function|public|private|protected)\s+[\w]+\s*\(', line)`. -/
def startsFunc (l : Str) : Bool :=
  let r := l.dropWhile isPyWs
  kwFuncPat "def" r || kwFuncPat "function" r || kwFuncPat "public" r ||
  kwFuncPat "private" r || kwFuncPat "protected" r

/-- Model of `re.match(r'\s*(class)\s+[\w]+', line)`. -/
def startsClass (l : Str) : Bool :=
  let r := l.dropWhile isPyWs
  (lit "class" r >>= ws1 >>= cls1 isWordChar).isSome

/-- Model of `line.count('{') - line.count('}')`. -/
def braceDelta (l : Str) : Int := (l.count '{' : Int) - (l.count '}' : Int)

/-- State of `CodeChunker.chunk`: emitted chunks, the accumulating line list
and its size counter, the accumulated import lines, the in-function/in-class
flags and the nesting depth. -/
structure CState where
  chunks : List Chunk
  cur : List Str
  curSize : Nat
  imps : List Str
  inF : Bool
  inC : Bool
  depth : Int
deriving DecidableEq

/-- Flush the accumulator as one chunk, import lines prepended (the source's
`'\n'.join(imports + current_chunk)`), and reset the accumulator. -/
def codeFlush (lang : String) (st : CState) : CState :=
  { st with
    chunks := st.chunks ++
      [{ content := List.intercalate ['\n'] (st.imps ++ st.cur), chunkType := "code",
         language := some lang, chunkIndex := st.chunks.length }],
    cur := [], curSize := 0 }

/-- Lines 305-317: set the in-function / in-class flag and bump the depth
when the line matches a declaration pattern. -/
def codeMark (st : CState) (l : Str) : CState :=
  if startsFunc l then { st with inF := true, depth := st.depth + 1 }
  else if startsClass l then { st with inC := true, depth := st.depth + 1 }
  else st

/-- Line 319: add the line's net brace count to the depth. -/
def codeBraces (st : CState) (l : Str) : CState :=
  { st with depth := st.depth + braceDelta l }

/-- Lines 322-341: when inside a block and the depth dropped to 0 or the
last line is reached, close the block and flush the accumulator if any. -/
def codeCloseBlock (lang : String) (st : CState) (isLast : Bool) : CState :=
  if (st.inF || st.inC) && (decide (st.depth ≤ 0) || isLast) then
    if st.cur ≠ [] then
      codeFlush lang { st with inF := false, inC := false, depth := 0 }
    else { st with inF := false, inC := false, depth := 0 }
  else st

/-- Lines 344-345: append the line to the accumulator. -/
def codeAppendLine (st : CState) (l : Str) : CState :=
  { st with cur := st.cur ++ [l], curSize := st.curSize + l.length + 1 }

/-- Lines 348-360: outside any block, flush when the accumulated size
exceeds the budget. -/
def codeSizeFlush (size : Nat) (lang : String) (st : CState) : CState :=
  if size < st.curSize && !(st.inF || st.inC) then codeFlush lang st else st

/-- Per-line body of the `CodeChunker.chunk` loop (lines 298-360 of
`src/chunkers.py`), the source's statements in sequence; `isLast` models
`i == len(lines) - 1`.  An import line is recorded and skipped (`continue`). -/
def codeStep (size : Nat) (lang : String) (st : CState) (l : Str) (isLast : Bool) : CState :=
  if matchesImport l then { st with imps := st.imps ++ [l] }
  else codeSizeFlush size lang
    (codeAppendLine (codeCloseBlock lang (codeBraces (codeMark st l) l) isLast) l)

def codeLoop (size : Nat) (lang : String) (st : CState) : List Str → CState
  | [] => st
  | l :: rest => codeLoop size lang (codeStep size lang st l rest.isEmpty) rest

/-- Model of `CodeChunker.chunk` (lines 281-375 of `src/chunkers.py`).  The
`chunk_overlap` parameter is accepted and never read, as in the source. -/
def codeChunk (content : Str) (size olap : Nat) : List Chunk :=
  let lang := detectLanguage content
  let st := codeLoop size lang
    { chunks := [], cur := [], curSize := 0, imps := [], inF := false, inC := false, depth := 0 }
    (splitLines content)
  if st.cur ≠ [] then (codeFlush lang st).chunks else st.chunks

inductive JVal where
  | jnull : JVal
  | jbool : Bool → JVal
  | jnum : Int → JVal
  | jstr : Str → JVal
  | jarr : List JVal → JVal
  | jobj : List (Str × JVal) → JVal

/-- One character of `json.dumps` string escaping. -/
def escChar (c : Char) : Str :=
  if c = '"' then ['\\', '"']
  else if c = '\\' then ['\\', '\\']
  else if c = '\n' then ['\\', 'n']
  else if c = '\t' then ['\\', 't']
  else if c = '\r' then ['\\', 'r']
  else [c]

def dumpStr (s : Str) : Str := '"' :: (s.map escChar).flatten ++ ['"']

/-! `dumps` models `json.dumps` with its default separators
(`', '` between items, `': '` after keys). -/

mutual
def dumps : JVal → Str
  | .jnull => "null".data
  | .jbool b => if b then "true".data else "false".data
  | .jnum n => (toString n).data
  | .jstr s => dumpStr s
  | .jarr items => '[' :: dumpsList items ++ [']']
  | .jobj fields => '{' :: dumpsFields fields ++ ['}']
def dumpsList : List JVal → Str
  | [] => []
  | [v] => dumps v
  | v :: rest => dumps v ++ ',' :: ' ' :: dumpsList rest
def dumpsFields : List (Str × JVal) → Str
  | [] => []
  | [(k, v)] => dumpStr k ++ ':' :: ' ' :: dumps v
  | (k, v) :: rest => dumpStr k ++ ':' :: ' ' :: dumps v ++ ',' :: ' ' :: dumpsFields rest
end

/-- State of `_process_dict` / `_process_list`: emitted chunks, the
accumulating group and its size estimate. -/
structure JState (α : Type) where
  chunks : List Chunk
  cur : List α
  curSize : Nat

def jsonFlush (cs : List Chunk) (c : Str) : List Chunk :=
  cs ++ [{ content := c, chunkType := "json", chunkIndex := cs.length }]

/-- Loop body of `_process_dict` (lines 433-470 of `src/chunkers.py`). -/
def dictStep (size : Nat) (st : JState (Str × JVal)) (kv : Str × JVal) : JState (Str × JVal) :=
  let itemStr := dumps (.jobj [kv])
  if st.curSize + itemStr.length ≤ size then
    { st with cur := st.cur ++ [kv], curSize := st.curSize + itemStr.length }
  else if st.cur.isEmpty then
    { st with chunks := jsonFlush st.chunks itemStr }
  else
    { chunks := jsonFlush st.chunks (dumps (.jobj st.cur)), cur := [kv], curSize := itemStr.length }

/-- Model of `JsonChunker._process_dict` (lines 428-483). -/
def processDict (size : Nat) (fs : List (Str × JVal)) : List Chunk :=
  let st := fs.foldl (dictStep size) { chunks := [], cur := [], curSize := 0 }
  if st.cur.isEmpty then st.chunks else jsonFlush st.chunks (dumps (.jobj st.cur))

/-- Loop body of `_process_list` (lines 490-527). -/
def listStep (size : Nat) (st : JState JVal) (item : JVal) : JState JVal :=
  let itemStr := dumps item
  if st.curSize + itemStr.length ≤ size then
    { st with cur := st.cur ++ [item], curSize := st.curSize + itemStr.length }
  else if st.cur.isEmpty then
    { st with chunks := jsonFlush st.chunks itemStr }
  else
    { chunks := jsonFlush st.chunks (dumps (.jarr st.cur)), cur := [item], curSize := itemStr.length }

/-- Model of `JsonChunker._process_list` (lines 485-540). -/
def processList (size : Nat) (items : List JVal) : List Chunk :=
  let st := items.foldl (listStep size) { chunks := [], cur := [], curSize := 0 }
  if st.cur.isEmpty then st.chunks else jsonFlush st.chunks (dumps (.jarr st.cur))

/-- Model of `JsonChunker.chunk` (lines 391-426 of `src/chunkers.py`), with the
`json.loads` outcome supplied as `parsed`.  On parse failure (`none`) the
whole input is delegated to the text chunker; a scalar value yields one
chunk holding the original content verbatim. -/
def jsonChunk (parsed : Option JVal) (content : Str) (size olap : Nat) : Option (List Chunk) :=
  match parsed with
  | none => textChunk content size olap
  | some (.jobj fs) => some (processDict size fs)
  | some (.jarr items) => some (processList size items)
  | some _ => some [{ content := content, chunkType := "json", chunkIndex := 0 }]

example :
    (jsonChunk (some (.jobj [("a".data, .jnum 1), ("b".data, .jnum 2)])) "".data 50 0).map
      (List.map Chunk.content) = some ["\x7b\x22a\x22: 1, \x22b\x22: 2\x7d".data] := by decide

/-! Helper lemmas. -/

theorem dropToLastNl_mem : ∀ (l : Str) (r : Str), dropToLastNl l = some r →
    ∀ c ∈ r, c ∈ l := by
  intro l
  induction l with
  | nil => intro r h; simp [dropToLastNl] at h
  | cons c rest ih =>
    intro r h x hx
    simp only [dropToLastNl] at h
    split at h
    · split at h
      · next hrec =>
        cases h
        exact List.mem_cons_of_mem _ (ih _ hrec x hx)
      · split at h
        · cases h; exact List.mem_cons_of_mem _ hx
        · cases h
    · cases h

theorem isEmpty_false_of_ne_nil {l : Str} (h : l ≠ []) : l.isEmpty = false := by
  cases l with
  | nil => exact absurd rfl h
  | cons c rest => rfl

/-! Claim theorems. -/

/-- C1: the spec's completeness property — concatenating all TextSplitter
chunk contents reproduces every non-whitespace input character exactly once,
overlap-window repetitions apart — fails on the code.  On the input
`Hi mom. This sentence is long. Yes.` with `chunk_size = 10` and
`chunk_overlap = 0` (so no overlap window repeats anything), the splitter
emits the chunk `Hi mom.` twice: after the first flush in the sentence loop the
accumulator is not reset before the character-window path, so the stale
accumulator is flushed a second time.  The character `H` occurs once in the
input but twice in the concatenated output. -/
theorem textChunk_duplicates_nonwhitespace :
    (textChunk "Hi mom. This sentence is long. Yes.".data 10 0).map (List.map Chunk.content) =
      some ["Hi mom.".data, "This sente".data, "nce is lon".data, "g.".data,
            "Hi mom.".data, "Yes.".data] ∧
    List.count 'H' "Hi mom. This sentence is long. Yes.".data = 1 ∧
    List.count 'H' ["Hi mom.".data, "This sente".data, "nce is lon".data, "g.".data,
            "Hi mom.".data, "Yes.".data].flatten = 2 := by decide

/-- C2: the spec's size bound — chunks whose source units all fit in
`chunk_size` are at most `chunk_size` long — fails on the code.  On
three paragraphs `aaaaaaa`, `bbbbbb`, `ccc` separated by blank lines, with
`chunk_size = 10` and `chunk_overlap = 0`,
every stripped paragraph has length at most 10, yet the second emitted chunk
`bbbbbb` + two newlines + `ccc` has length 11: after a flush the code sets
`current_size` to the bare paragraph length, so the next join separator is not
counted against the budget. -/
theorem textChunk_exceeds_size_bound :
    (textChunk "aaaaaaa\n\nbbbbbb\n\nccc".data 10 0).map
        (List.map (fun c => (c.content, c.content.length))) =
      some [("aaaaaaa".data, 7), ("bbbbbb\n\nccc".data, 11)] ∧
    (∀ p ∈ splitParas "aaaaaaa\n\nbbbbbb\n\nccc".data, (pyStrip p).length ≤ 10) := by decide

/-- C3: the claim that every splitter's `chunk_index` values are
`0, 1, …, n-1` fails for HTMLSplitter's oversized-section path: the source
computes `len(chunks) + i` inside the append loop, so the already-appended
sub-chunks are double counted.  A single `div` whose 10-character text
splits into two sub-chunks at `chunk_size = 5` yields indices `[0, 2]`. -/
theorem htmlChunk_subsplit_index_gap :
    (htmlChunk [HNode.elem "div" none none [HNode.textNode "aaaaaa bbb".data]] 5 0).map
      (List.map Chunk.chunkIndex) = some [0, 2] := by decide

/-- C4: the claim that the raw-window stride is clamped to at least 1 fails
on the code: `range(0, len(sentence), chunk_size - chunk_overlap)` is not
clamped.  With `chunk_size = chunk_overlap = 5` and the 6-character sentence
`aaaaaa` the step is 0 and Python raises `ValueError` (modelled `none`);
with `chunk_overlap = 6` the step is negative, the loop body never runs, and
the sentence is silently dropped instead of being sliced. -/
theorem textChunk_degenerate_overlap_not_clamped :
    textChunk "aaaaaa".data 5 5 = none ∧
    (textChunk "aaaaaa".data 5 6).map (List.map Chunk.content) = some [] := by decide

/-- C5: on a JSON parse failure (`parsed = none`) `JsonChunker.chunk`
delegates wholesale to `TextChunker.chunk` with the same size and overlap,
returning the identical chunk sequence — same contents, `chunk_type` and
`chunk_index`; in particular on the input `not json at all` with size 1000 and
overlap 200 both produce the single text chunk below. -/
theorem jsonChunk_parse_failure_is_textChunk :
    (∀ (c : Str) (size olap : Nat), jsonChunk none c size olap = textChunk c size olap) ∧
    jsonChunk none "not json at all".data 1000 200 =
      some [{ content := "not json at all".data, chunkType := "text", chunkIndex := 0 }] := by
  refine ⟨fun c size olap => rfl, by decide⟩

/-- C7: `CodeChunker.chunk` accepts `chunk_overlap` but never reads it, so
any two overlap values produce identical output — contents, `chunk_type`,
`language` and `chunk_index` alike. -/
theorem codeChunk_ignores_overlap :
    ∀ (content : Str) (size o1 o2 : Nat), codeChunk content size o1 = codeChunk content size o2 :=
  fun _ _ _ _ => rfl

theorem dropWhile_eq_nil_of_all (p : Char → Bool) :
    ∀ (l : Str), (∀ c ∈ l, p c = true) → l.dropWhile p = [] := by
  intro l
  induction l with
  | nil => intro _; rfl
  | cons c rest ih =>
    intro h
    simp only [List.dropWhile]
    rw [h c (List.mem_cons_self _ _)]
    exact ih (fun x hx => h x (List.mem_cons_of_mem _ hx))

theorem pyStrip_eq_nil_of_ws (l : Str) (h : ∀ c ∈ l, isPyWs c = true) : pyStrip l = [] := by
  unfold pyStrip
  rw [dropWhile_eq_nil_of_all _ l h]
  rfl

theorem splitParasGo_all_ws :
    ∀ (fuel : Nat) (cur rest : Str),
      (∀ c ∈ cur, isPyWs c = true) → (∀ c ∈ rest, isPyWs c = true) →
      ∀ p ∈ splitParasGo fuel cur rest, ∀ c ∈ p, isPyWs c = true := by
  intro fuel
  induction fuel with
  | zero =>
    intro cur rest hc hr p hp c hcp
    cases rest with
    | nil =>
      simp only [splitParasGo, List.mem_singleton] at hp
      subst hp
      exact hc c (List.mem_reverse.mp hcp)
    | cons x xs =>
      simp only [splitParasGo, List.mem_singleton] at hp
      subst hp
      rcases List.mem_append.mp hcp with h | h
      · exact hc c (List.mem_reverse.mp h)
      · exact hr c h
  | succ fuel ih =>
    intro cur rest hc hr p hp c hcp
    cases rest with
    | nil =>
      simp only [splitParasGo, List.mem_singleton] at hp
      subst hp
      exact hc c (List.mem_reverse.mp hcp)
    | cons x xs =>
      have hx : isPyWs x = true := hr x (List.mem_cons_self _ _)
      have hxs : ∀ c ∈ xs, isPyWs c = true := fun y hy => hr y (List.mem_cons_of_mem _ hy)
      simp only [splitParasGo] at hp
      split at hp
      · split at hp
        · next r hdrop =>
          rcases List.mem_cons.mp hp with rfl | hp2
          · exact hc c (List.mem_reverse.mp hcp)
          · exact ih [] r (by intro y hy; cases hy)
              (fun y hy => hxs y (dropToLastNl_mem _ _ hdrop y hy)) p hp2 c hcp
        · exact ih (x :: cur) xs
            (by intro y hy; rcases List.mem_cons.mp hy with rfl | hy2
                exacts [hx, hc y hy2]) hxs p hp c hcp
      · exact ih (x :: cur) xs
          (by intro y hy; rcases List.mem_cons.mp hy with rfl | hy2
              exacts [hx, hc y hy2]) hxs p hp c hcp

theorem foldlM_procPara_ws (size olap : Nat) :
    ∀ (ps : List Str) (st : TCState), (∀ p ∈ ps, ∀ c ∈ p, isPyWs c = true) →
      ps.foldlM (procPara size olap) st = some st := by
  intro ps
  induction ps with
  | nil => intro st _; rfl
  | cons p rest ih =>
    intro st h
    have hp : procPara size olap st p = some st := by
      simp [procPara, pyStrip_eq_nil_of_ws p (h p (List.mem_cons_self _ _))]
    rw [List.foldlM_cons, hp]
    exact ih st (fun x hx => h x (List.mem_cons_of_mem _ hx))

/-- C8: on an input made only of whitespace (the empty string included)
`TextChunker.chunk` returns no chunks at all: every paragraph strips to the
empty string and is skipped, and the final flush is skipped because the
accumulator stayed empty. -/
theorem textChunk_whitespace_only_empty :
    ∀ (content : Str) (size olap : Nat), (∀ c ∈ content, isPyWs c = true) →
      textChunk content size olap = some [] := by
  intro content size olap h
  have hps : ∀ p ∈ splitParas content, ∀ c ∈ p, isPyWs c = true :=
    splitParasGo_all_ws content.length [] content (by intro y hy; cases hy) h
  unfold textChunk
  rw [foldlM_procPara_ws size olap (splitParas content) _ hps]
  rfl

/-- C8 witness: a concrete whitespace-only input. -/
theorem textChunk_whitespace_only_empty_w :
    textChunk " \t\n\n  \n ".data 10 3 = some [] :=
  textChunk_whitespace_only_empty _ 10 3 (by decide)

theorem codeLoop_all_import_lines (size : Nat) (lang : String) :
    ∀ (ls : List Str) (st : CState), (∀ l ∈ ls, matchesImport l = true) →
      (codeLoop size lang st ls).chunks = st.chunks ∧ (codeLoop size lang st ls).cur = st.cur := by
  intro ls
  induction ls with
  | nil => intro st _; exact ⟨rfl, rfl⟩
  | cons l rest ih =>
    intro st h
    have hl : matchesImport l = true := h l (List.mem_cons_self _ _)
    have hstep : codeStep size lang st l rest.isEmpty = { st with imps := st.imps ++ [l] } := by
      simp [codeStep, hl]
    simp only [codeLoop, hstep]
    exact ih _ (fun x hx => h x (List.mem_cons_of_mem _ hx))

/-- C9: on a document every line of which matches the import pattern,
`CodeChunker.chunk` returns no chunks: each line is diverted into the
`imports` list and `continue`d past, so nothing ever accumulates and nothing
is flushed — the whole document is dropped from the output. -/
theorem codeChunk_all_import_lines_empty :
    ∀ (content : Str) (size olap : Nat),
      (∀ l ∈ splitLines content, matchesImport l = true) →
      codeChunk content size olap = [] := by
  intro content size olap h
  have h2 := codeLoop_all_import_lines size (detectLanguage content) (splitLines content)
    { chunks := [], cur := [], curSize := 0, imps := [], inF := false, inC := false, depth := 0 } h
  simp only [codeChunk]
  rw [if_neg (by rw [h2.2]; simp)]
  exact h2.1

/-- C9 witness: a two-line document of one `import` and one `using` line. -/
theorem codeChunk_all_import_lines_empty_w :
    codeChunk "import os\nusing sys".data 1000 200 = [] :=
  codeChunk_all_import_lines_empty _ 1000 200 (by decide)

/-! Lemmas for the import-prefix structure of code chunks: each emitted
chunk is `'\n'.join` of the imports accumulated at its flush time (an
initial segment of the document's import lines) followed by the accumulated
non-import lines.  The accumulator never holds an import line (such a line
is diverted into `imports` and skipped), so the import lines of a chunk all
stand at its front and form an initial segment of the document's
import-line list. -/

theorem getText_inner (tI : String) (iB : Option Str) (cB : Option (List Str)) (b : Str)
    (hb : pyStrip b ≠ []) :
    getText [' '] (HNode.elem tI iB cB [HNode.textNode b]) = pyStrip b := by
  simp only [getText, collectStrings, collectStringsL, List.append_nil, List.map_cons,
    List.map_nil, List.filter_cons, List.filter_nil]
  rw [isEmpty_false_of_ne_nil hb]
  simp [List.intercalate]

theorem getText_outer (tO tI : String) (iA iB : Option Str) (cA cB : Option (List Str))
    (a b : Str) (ha : pyStrip a ≠ []) (hb : pyStrip b ≠ []) :
    getText [' '] (HNode.elem tO iA cA
      [HNode.textNode a, HNode.elem tI iB cB [HNode.textNode b]]) =
      pyStrip a ++ ' ' :: pyStrip b := by
  simp only [getText, collectStrings, collectStringsL, List.append_nil, List.singleton_append,
    List.map_cons, List.map_nil, List.filter_cons, List.filter_nil]
  rw [isEmpty_false_of_ne_nil ha, isEmpty_false_of_ne_nil hb]
  simp [List.intercalate, List.intersperse]

theorem findAllL_nested_doc (t tO tI : String) (iA iB : Option Str)
    (cA cB : Option (List Str)) (a b : Str) :
    findAllL t [HNode.elem tO iA cA
        [HNode.textNode a, HNode.elem tI iB cB [HNode.textNode b]]] =
      (if tO = t then
        [HNode.elem tO iA cA [HNode.textNode a, HNode.elem tI iB cB [HNode.textNode b]]]
       else []) ++
      (if tI = t then [HNode.elem tI iB cB [HNode.textNode b]] else []) := by
  simp [findAll, findAllL]

theorem length_flatten_pair_ites (ts : List String) (t1 t2 : String) (x y : HNode) :
    ((ts.map (fun t => (if t1 = t then [x] else []) ++ (if t2 = t then [y] else []))).flatten).length =
      ts.count t1 + ts.count t2 := by
  induction ts with
  | nil => simp
  | cons t ts ih =>
    simp only [List.map_cons, List.flatten_cons, List.length_append, ih, List.count_cons,
      beq_iff_eq]
    by_cases h1 : t1 = t <;> by_cases h2 : t2 = t
    · simp [h1, h2]
      omega
    · have h2b : ¬(t = t2) := fun h => h2 h.symm
      simp [h1, h2, h2b]
      omega
    · have h1b : ¬(t = t1) := fun h => h1 h.symm
      simp [h1, h1b, h2]
      omega
    · have h1b : ¬(t = t1) := fun h => h1 h.symm
      have h2b : ¬(t = t2) := fun h => h2 h.symm
      simp [h1, h1b, h2, h2b]

theorem mem_flatten_pair_ites {ts : List String} {t1 t2 : String} {x y z : HNode}
    (h : z ∈ (ts.map (fun t =>
        (if t1 = t then [x] else []) ++ (if t2 = t then [y] else []))).flatten) :
    z = x ∨ z = y := by
  rcases List.mem_flatten.mp h with ⟨l, hl, hz⟩
  rcases List.mem_map.mp hl with ⟨t, _, rfl⟩
  rcases List.mem_append.mp hz with h2 | h2
  · split at h2
    · exact Or.inl (List.mem_singleton.mp h2)
    · cases h2
  · split at h2
    · exact Or.inr (List.mem_singleton.mp h2)
    · cases h2

theorem sectionTags_count_one {t : String} (h : t ∈ sectionTags) : sectionTags.count t = 1 := by
  simp only [sectionTags, List.mem_cons, List.not_mem_nil, or_false] at h
  rcases h with rfl | rfl | rfl | rfl | rfl | rfl | rfl | rfl <;> decide

theorem foldlM_htmlSecStep_small (size olap : Nat) :
    ∀ (secs : List HNode) (cs : List Chunk),
      (∀ x ∈ secs, getText [' '] x ≠ [] ∧ (getText [' '] x).length ≤ size) →
      ∃ res, secs.foldlM (htmlSecStep size olap) cs = some res ∧
        res.map Chunk.content = cs.map Chunk.content ++ secs.map (getText [' ']) := by
  intro secs
  induction secs with
  | nil => intro cs _; exact ⟨cs, rfl, by simp⟩
  | cons x rest ih =>
    intro cs h
    obtain ⟨hne, hle⟩ := h x (List.mem_cons_self _ _)
    have hstep : htmlSecStep size olap cs x =
        some (cs ++ [{ content := getText [' '] x, chunkType := "html",
                       chunkIndex := cs.length,
                       sectionId := some (attrStr (nodeId x)),
                       sectionClass := some (classStr (nodeClass x)) }]) := by
      simp only [htmlSecStep]
      rw [if_neg hne, if_pos hle]
    obtain ⟨res, hres, hmap⟩ :=
      ih (cs ++ [{ content := getText [' '] x, chunkType := "html",
                   chunkIndex := cs.length,
                   sectionId := some (attrStr (nodeId x)),
                   sectionClass := some (classStr (nodeClass x)) }])
        (fun y hy => h y (List.mem_cons_of_mem _ hy))
    refine ⟨res, ?_, ?_⟩
    · rw [List.foldlM_cons, hstep]
      simpa using hres
    · rw [hmap]
      simp

/-- C10: in a document where one allowlisted section element is nested
inside another and both texts are non-empty and fit together in
`chunk_size`, `HTMLChunker.chunk` emits one chunk for the outer element and
one for the inner element, so the inner element's text occurs in two
distinct chunks of the one call's output — nested sections duplicate
content. -/
theorem htmlChunk_nested_sections_duplicate :
    ∀ (tO tI : String) (iA iB : Option Str) (cA cB : Option (List Str)) (a b : Str)
      (size olap : Nat),
      tO ∈ sectionTags → tI ∈ sectionTags →
      pyStrip a ≠ [] → pyStrip b ≠ [] →
      (pyStrip a).length + 1 + (pyStrip b).length ≤ size →
      ∃ res, htmlChunk [HNode.elem tO iA cA
          [HNode.textNode a, HNode.elem tI iB cB [HNode.textNode b]]] size olap = some res ∧
        res.length = 2 ∧
        ∀ ch ∈ res, ∃ u v, ch.content = u ++ pyStrip b ++ v := by
  intro tO tI iA iB cA cB a b size olap htO htI ha hb hsz
  have hsecs : htmlSections [HNode.elem tO iA cA
      [HNode.textNode a, HNode.elem tI iB cB [HNode.textNode b]]] =
      (sectionTags.map (fun t =>
        (if tO = t then
          [HNode.elem tO iA cA [HNode.textNode a, HNode.elem tI iB cB [HNode.textNode b]]]
         else []) ++
        (if tI = t then [HNode.elem tI iB cB [HNode.textNode b]] else []))).flatten := by
    unfold htmlSections
    congr 1
    exact List.map_congr_left (fun t _ => findAllL_nested_doc t tO tI iA iB cA cB a b)
  have hlen : (htmlSections [HNode.elem tO iA cA
      [HNode.textNode a, HNode.elem tI iB cB [HNode.textNode b]]]).length = 2 := by
    rw [hsecs, length_flatten_pair_ites, sectionTags_count_one htO, sectionTags_count_one htI]
  have hmem : ∀ z ∈ htmlSections [HNode.elem tO iA cA
      [HNode.textNode a, HNode.elem tI iB cB [HNode.textNode b]]],
      z = HNode.elem tO iA cA [HNode.textNode a, HNode.elem tI iB cB [HNode.textNode b]] ∨
      z = HNode.elem tI iB cB [HNode.textNode b] := by
    intro z hz
    rw [hsecs] at hz
    exact mem_flatten_pair_ites hz
  have hGTi : getText [' '] (HNode.elem tI iB cB [HNode.textNode b]) = pyStrip b :=
    getText_inner tI iB cB b hb
  have hGTo : getText [' ']
      (HNode.elem tO iA cA [HNode.textNode a, HNode.elem tI iB cB [HNode.textNode b]]) =
      pyStrip a ++ ' ' :: pyStrip b :=
    getText_outer tO tI iA iB cA cB a b ha hb
  have hcond : ∀ x ∈ htmlSections [HNode.elem tO iA cA
      [HNode.textNode a, HNode.elem tI iB cB [HNode.textNode b]]],
      getText [' '] x ≠ [] ∧ (getText [' '] x).length ≤ size := by
    intro x hx
    rcases hmem x hx with rfl | rfl
    · rw [hGTo]
      refine ⟨?_, ?_⟩
      · rcases List.exists_cons_of_ne_nil ha with ⟨c, l2, hc⟩
        rw [hc]
        simp
      · simp only [List.length_append, List.length_cons]
        omega
    · rw [hGTi]
      exact ⟨hb, by omega⟩
  obtain ⟨res, hres, hmap⟩ := foldlM_htmlSecStep_small size olap _ [] hcond
  have hne : (htmlSections [HNode.elem tO iA cA
      [HNode.textNode a, HNode.elem tI iB cB [HNode.textNode b]]]).isEmpty = false := by
    rcases hsecs2 : htmlSections [HNode.elem tO iA cA
        [HNode.textNode a, HNode.elem tI iB cB [HNode.textNode b]]] with _ | ⟨u, us⟩
    · rw [hsecs2] at hlen
      cases hlen
    · rfl
  refine ⟨res, ?_, ?_, ?_⟩
  · simp only [htmlChunk]
    rw [hne]
    simpa using hres
  · have h2 := congrArg List.length hmap
    simp only [List.length_map, List.map_nil, List.nil_append] at h2
    rw [h2, hlen]
  · intro ch hch
    have hc2 : ch.content ∈ res.map Chunk.content := List.mem_map_of_mem _ hch
    rw [hmap] at hc2
    simp only [List.map_nil, List.nil_append] at hc2
    rcases List.mem_map.mp hc2 with ⟨sec, hsec, hcontent⟩
    rcases hmem sec hsec with rfl | rfl
    · refine ⟨pyStrip a ++ [' '], [], ?_⟩
      rw [← hcontent, hGTo]
      simp
    · refine ⟨[], [], ?_⟩
      rw [← hcontent, hGTi]
      simp

/-- C10 witness: two nested `div` elements with texts `Hello` and `World`
at size 20; `World` occurs in both emitted chunks. -/
theorem htmlChunk_nested_sections_duplicate_w :
    ∃ res, htmlChunk [HNode.elem "div" none none
        [HNode.textNode "Hello".data,
         HNode.elem "div" none none [HNode.textNode "World".data]]] 20 0 = some res ∧
      res.length = 2 ∧
      ∀ ch ∈ res, ∃ u v, ch.content = u ++ pyStrip "World".data ++ v :=
  htmlChunk_nested_sections_duplicate "div" "div" none none none none
    "Hello".data "World".data 20 0 (by decide) (by decide) (by decide) (by decide) (by decide)

end Chunkers
